import Mathlib

/-!
Verification development for the cosatka-click-2 battle server
(source: src/serv.js).

The JavaScript server keeps two global mutable collections, `players`
(the registry) and `battles` (the battle manager's live collection),
plus a `Battle` class implementing the turn-based duel state machine.
Below we embed the battle-relevant data model and operations shallowly:

* registry records become `BPlayerRec` (profile fields that battle
  logic never reads, such as `autoPower`, `currentSkin` and the two
  timestamps, are omitted; they influence none of the verified claims);
* `Battle` objects become the `Battle` structure; the JS object keyed
  health map `this.health = {[p1.id]: .., [p2.id]: ..}` is represented
  by the fields `health1`/`health2` together with the accessors
  `getHealth`/`setHealth`, which agree with JS object semantics even
  when the two participant ids coincide (then both fields are written
  and the first is read, exactly like a single object key);
* `setTimeout`/`clearTimeout` single-shot turn timers are modelled by
  a per-battle generation counter `timerGen`, the stored handle
  `turnTimer` (JS never nulls the field, it only clears the timeout)
  and the multiset of still-pending timers `pendingTimers`;
* `Math.random()`-derived quantities are passed in as explicit
  parameters: `r` for the damage-variance draw
  `Math.floor(Math.random() * (variance * 2 + 1))` and `coin` for the
  equal-health tie break; `Math.floor(x * 0.1)` and
  `Math.floor(x * 0.2)` on non-negative integers are embedded as the
  exact integer divisions by 10 and 5;
* the aliasing between a battle's stored `player1`/`player2` object
  references and the registry array is modelled by `liveRec`: field
  reads go through the registry while the player is registered and
  fall back to the stored snapshot otherwise, which is what the shared
  JS object reference yields;
* database writes, socket emissions and timestamps are outside the
  in-memory state and are dropped.
-/

/-- Battle status, line 154 of serv.js: active, finished, cancelled. -/
inductive BStatus where
  | active
  | finished
  | cancelled
deriving DecidableEq

/-- A registry record from the global `players` array (battle-relevant
fields only; connection ids are opaque and embedded as naturals). -/
structure BPlayerRec where
  pid : Nat
  name : String
  resources : Int
  clickPower : Nat
  inBattle : Bool
  battleId : Option Nat
deriving DecidableEq

/-- An entry of a battle's append-only `actions` log: the attack record
built in performAttack, the timeout record built in the turn-timer
callback, and the cancel record built in cancelBattle (timestamps
dropped). -/
inductive BAction where
  | attack (isSpecial : Bool) (attacker defender : String) (damage cost : Int)
      (turn : Nat) (battleEnd : Bool) (winner : Option String)
  | timeout (player : Nat) (damage : Int) (turn : Nat) (battleEnd : Bool)
      (winner : Option String)
  | cancel (reason : String)
deriving DecidableEq

/-- A `Battle` object (constructor at lines 142-159 of serv.js).
`pl1`/`pl2` are the stored `player1`/`player2` object snapshots,
`health1`/`health2` the two entries of the health object, and the last
three fields model the turn-timer machinery as described above. -/
structure Battle where
  bid : Nat
  pl1 : BPlayerRec
  pl2 : BPlayerRec
  turn : Nat
  currentPlayer : Nat
  health1 : Int
  health2 : Int
  actions : List BAction
  status : BStatus
  winner : Option Nat
  turnTimer : Option Nat
  pendingTimers : List Nat
  timerGen : Nat
deriving DecidableEq

/-- The whole in-memory server state: the `players` registry array and
the `battles` live collection. -/
structure ServerState where
  players : List BPlayerRec
  battles : List Battle
deriving DecidableEq

/-- players.find(p => p.id === pid). -/
def findPlayer (ps : List BPlayerRec) (pid : Nat) : Option BPlayerRec :=
  ps.find? (fun p => p.pid == pid)

/-- Mutate the first registry record with the given id in place
(the players.findIndex + players[idx] mutation pattern); no-op when
the id is absent, matching the `!== -1` guards in serv.js. -/
def modifyPlayer : List BPlayerRec → Nat → (BPlayerRec → BPlayerRec) → List BPlayerRec
  | [], _, _ => []
  | p :: rest, pid, f =>
      if p.pid = pid then f p :: rest else p :: modifyPlayer rest pid f

/-- players[idx].resources += delta for the first record with the id. -/
def addRes (ps : List BPlayerRec) (pid : Nat) (delta : Int) : List BPlayerRec :=
  modifyPlayer ps pid (fun p => { p with resources := p.resources + delta })

/-- The live view of a stored player object reference: while the player
is registered the shared reference carries the registry's current field
values; after removal the reference keeps its last (snapshot) values. -/
def liveRec (ps : List BPlayerRec) (snap : BPlayerRec) : BPlayerRec :=
  (findPlayer ps snap.pid).getD snap

/-- getOpponent, lines 166-168: playerId === player1.id ? player2 : player1. -/
def getOpponent (b : Battle) (pid : Nat) : BPlayerRec :=
  if pid = b.pl1.pid then b.pl2 else b.pl1

/-- The stored object performAttack binds to `attacker` at line 180:
attackerId === player1.id ? player1 : player2. -/
def attackerOf (b : Battle) (pid : Nat) : BPlayerRec :=
  if pid = b.pl1.pid then b.pl1 else b.pl2

/-- isParticipant, lines 171-173. -/
def isParticipant (b : Battle) (pid : Nat) : Prop :=
  b.pl1.pid = pid ∨ b.pl2.pid = pid

instance (b : Battle) (pid : Nat) : Decidable (isParticipant b pid) := by
  unfold isParticipant
  infer_instance

/-- this.health[pid] for a participant id (reads the first key when the
two participant ids coincide, like a single JS object key). -/
def getHealth (b : Battle) (pid : Nat) : Int :=
  if pid = b.pl1.pid then b.health1 else b.health2

/-- this.health[pid] = v (writes every matching key). -/
def setHealth (b : Battle) (pid : Nat) (v : Int) : Battle :=
  { b with
    health1 := if pid = b.pl1.pid then v else b.health1
    health2 := if pid = b.pl2.pid then v else b.health2 }

/-- if (this.turnTimer) clearTimeout(this.turnTimer): the pending
timeout named by the stored handle (if any) will no longer fire; the
field itself is left untouched, as in the JS. -/
def clearTimer (b : Battle) : Battle :=
  { b with pendingTimers :=
      match b.turnTimer with
      | some h => b.pendingTimers.filter (fun x => x != h)
      | none => b.pendingTimers }

/-- startTurnTimer, lines 312-351 (arming part): clear any previously
stored timeout, then arm a fresh single-shot timer and remember its
handle. The 30 s delay itself is real time and not part of the state. -/
def startTurnTimer (b : Battle) : Battle :=
  let b1 := clearTimer b
  let g := b.timerGen + 1
  { b1 with turnTimer := some g, pendingTimers := b1.pendingTimers ++ [g], timerGen := g }

/-- ATTACK_COST = 10, SPECIAL_ATTACK_COST = 25 (lines 54-55). -/
def attackCost (isSpecial : Bool) : Int :=
  if isSpecial then 25 else 10

/-- BASE_ATTACK_DAMAGE = 10, SPECIAL_ATTACK_DAMAGE = 25 (lines 56-57). -/
def attackBase (isSpecial : Bool) : Nat :=
  if isSpecial then 25 else 10

/-- Math.floor(attacker.clickPower * 0.1), line 203. -/
def clickBonus (clickPower : Nat) : Nat :=
  clickPower / 10

/-- variance = Math.floor(damage * 0.2), line 207. -/
def damageVariance (pre : Nat) : Nat :=
  pre / 5

/-- Lines 200-208: damage = base + clickBonus, then
damage += Math.floor(Math.random() * (variance * 2 + 1)) - variance,
with the random draw passed in as `r` (so the intended range of `r`
is 0 .. 2 * variance). -/
def attackDamage (isSpecial : Bool) (clickPower : Nat) (r : Nat) : Int :=
  ((attackBase isSpecial + clickBonus clickPower : Nat) : Int) + r
    - damageVariance (attackBase isSpecial + clickBonus clickPower)

/-- getWinnerByHealth, lines 276-285; `coin = true` stands for the
Math.random() > 0.5 draw choosing player1 on equal health. -/
def getWinnerByHealth (b : Battle) (coin : Bool) : Nat :=
  if getHealth b b.pl2.pid < getHealth b b.pl1.pid then b.pl1.pid
  else if getHealth b b.pl1.pid < getHealth b b.pl2.pid then b.pl2.pid
  else if coin then b.pl1.pid else b.pl2.pid

/-- finishBattle, lines 250-273: set status and winner, credit the
winner 50 + turn * 5 resources through the registry (no-op when the
winner id is not registered, like the findIndex guard), and clear the
pending turn timer. -/
def finishBattle (ps : List BPlayerRec) (b : Battle) (winnerId : Nat) :
    List BPlayerRec × Battle :=
  let reward : Int := 50 + (b.turn : Int) * 5
  let ps1 := addRes ps winnerId reward
  let b1 := clearTimer { b with status := BStatus.finished, winner := some winnerId }
  (ps1, b1)

/-- The accepted path of performAttack (lines 188-246): deduct the cost
from the registry record with the attacker's id, compute the damage,
apply it to the defender's health floored at 0, append the action
record, and either finish the battle (defender at 0, or the turn limit
of 20 after the turn advance) or pass the turn. -/
def applyAttackCore (ps : List BPlayerRec) (b : Battle) (attackerId : Nat)
    (isSpecial : Bool) (r : Nat) (coin : Bool) :
    List BPlayerRec × Battle × BAction :=
  let attacker := liveRec ps (attackerOf b attackerId)
  let defSnap := getOpponent b attackerId
  let defender := liveRec ps defSnap
  let cost := attackCost isSpecial
  let ps1 := addRes ps attackerId (-cost)
  let dmg := attackDamage isSpecial attacker.clickPower r
  let newH := max 0 (getHealth b defSnap.pid - dmg)
  let b1 := setHealth b defSnap.pid newH
  if newH ≤ 0 then
    let res := finishBattle ps1 b1 attackerId
    let act := BAction.attack isSpecial attacker.name defender.name dmg cost
      b1.turn true (some attacker.name)
    (res.1, { res.2 with actions := res.2.actions ++ [act] }, act)
  else
    let act := BAction.attack isSpecial attacker.name defender.name dmg cost
      b1.turn false none
    let b2 := { b1 with
      actions := b1.actions ++ [act]
      currentPlayer := defSnap.pid
      turn := b1.turn + 1 }
    if 20 ≤ b2.turn then
      let res := finishBattle ps1 b2 (getWinnerByHealth b2 coin)
      (res.1, res.2, act)
    else
      (ps1, b2, act)

/-- performAttack, lines 176-247. `none` is the `return false` failure
signal; the guards are, in source order: status !== 'active',
currentPlayer !== attackerId, attacker.resources < cost. -/
def performAttack (ps : List BPlayerRec) (b : Battle) (attackerId : Nat)
    (isSpecial : Bool) (r : Nat) (coin : Bool) :
    Option (List BPlayerRec × Battle × BAction) :=
  if b.status = BStatus.active then
    if b.currentPlayer = attackerId then
      if (liveRec ps (attackerOf b attackerId)).resources < attackCost isSpecial then
        none
      else
        some (applyAttackCore ps b attackerId isSpecial r coin)
    else none
  else none

/-- cancelBattle, lines 362-377: set status to cancelled (no status
guard in the source), clear the pending timer, append a cancel action. -/
def cancelBattle (b : Battle) (reason : String) : Battle :=
  let b1 := clearTimer { b with status := BStatus.cancelled }
  { b1 with actions := b1.actions ++ [BAction.cancel reason] }

/-- The body of the turn-timer callback (lines 317-350) firing with
handle `h`: the single-shot timer is consumed, and if the battle is
still active the current player takes 5 fixed damage (floored at 0); on
depletion the opponent wins, otherwise the turn passes and the timer is
re-armed. -/
def timerFire (ps : List BPlayerRec) (b : Battle) (h : Nat) :
    List BPlayerRec × Battle :=
  let b0 := { b with pendingTimers := b.pendingTimers.filter (fun x => x != h) }
  if b0.status = BStatus.active then
    let skipped := b0.currentPlayer
    let oppSnap := getOpponent b0 skipped
    let newH := max 0 (getHealth b0 skipped - 5)
    let b1 := setHealth b0 skipped newH
    if newH ≤ 0 then
      let res := finishBattle ps b1 oppSnap.pid
      let act := BAction.timeout skipped 5 b1.turn true (some (liveRec ps oppSnap).name)
      (res.1, { res.2 with actions := res.2.actions ++ [act] })
    else
      let act := BAction.timeout skipped 5 b1.turn false none
      let b2 := { b1 with
        actions := b1.actions ++ [act]
        currentPlayer := oppSnap.pid
        turn := b1.turn + 1 }
      (ps, startTurnTimer b2)
  else (ps, b0)

/-- The Battle constructor (lines 142-159) applied to the two stored
registry records: both healths at MAX_HEALTH = 100, turn 0, the first
participant (the challenger) to move, no timer armed yet. -/
def mkBattle (bid : Nat) (p1 p2 : BPlayerRec) : Battle :=
  { bid := bid, pl1 := p1, pl2 := p2, turn := 0, currentPlayer := p1.pid,
    health1 := 100, health2 := 100, actions := [], status := BStatus.active,
    winner := none, turnTimer := none, pendingTimers := [], timerGen := 0 }

/-- Character class [0-9] of the name-suffix regex. -/
def isDigitCh (c : Char) : Bool :=
  '0' ≤ c && c ≤ '9'

/-- Length of the maximal run of digits at the end of the name. -/
def trailingDigits (cs : List Char) : Nat :=
  (cs.reverse.takeWhile isDigitCh).length

/-- One application of name.replace(/_[0-9]{2,4}$/, '') on the list of
characters: the regex matches exactly when the name ends in a run of
2 to 4 digits preceded by an underscore (a longer digit run cannot
match, since the character before any 2-4 digit tail would itself be a
digit, not the required underscore). -/
def stripTailList (cs : List Char) : List Char :=
  let d := trailingDigits cs
  if 2 ≤ d ∧ d ≤ 4 ∧ cs.get? (cs.length - d - 1) = some '_' then
    cs.take (cs.length - d - 1)
  else cs

/-- stripSuffix of the player-join handler, line 399 of serv.js. -/
def stripTail (s : String) : String :=
  String.mk (stripTailList s.data)

/-- The final-name computation of the player-join handler (lines
397-406): strip the requested name to its base, and if any currently
registered player's stripped name equals that base (the find does not
exclude the joining connection's own record), the final name is the
base plus an underscore plus the generated suffix 100 + floor(rand*900),
passed in as `suffix`. -/
def joinFinalName (ps : List BPlayerRec) (requested : String) (suffix : Nat) : String :=
  let base := stripTail requested
  if ps.any (fun p => stripTail p.name == base) then
    base ++ "_" ++ toString suffix
  else requested

/-- The player-join handler (lines 388-469), state part: compute the
final name, then either update the existing record for this connection
id in place or push a fresh record (inBattle false, no battle id). The
requested profile values are passed in already trimmed/non-null, the
handler's fallbacks for missing payload fields are not modelled. -/
def joinPlayer (st : ServerState) (sid : Nat) (reqName : String) (res : Int)
    (cp : Nat) (suffix : Nat) : ServerState :=
  let finalName := joinFinalName st.players reqName suffix
  match findPlayer st.players sid with
  | some _ =>
      { st with players := modifyPlayer st.players sid (fun p =>
          { p with name := finalName, resources := res, clickPower := cp }) }
  | none =>
      { st with players := st.players ++
          [{ pid := sid, name := finalName, resources := res, clickPower := cp,
             inBattle := false, battleId := none }] }

/-- Replace the battle with the given id in the collection (the JS
mutates the found object in place). -/
def replaceBattle (bs : List Battle) (b : Battle) : List Battle :=
  bs.map (fun x => if x.bid = b.bid then b else x)

/-- The battle-accept handler (lines 695-739): look up acceptor (the
sender) and challenger; reject if either is missing, either is flagged
in battle, or the acceptor's resources are below ATTACK_COST = 10 (the
source checks the acceptor, not the challenger, and never compares the
two ids); on success construct the battle with the challenger first,
flag both players, push it, and arm the first turn timer. -/
def battleAccept (st : ServerState) (senderId challengerId : Nat) (newBid : Nat) :
    ServerState :=
  match findPlayer st.players senderId, findPlayer st.players challengerId with
  | some acceptor, some challenger =>
      if acceptor.inBattle || challenger.inBattle then st
      else if acceptor.resources < 10 then st
      else
        let b := startTurnTimer (mkBattle newBid challenger acceptor)
        let ps1 := modifyPlayer st.players challenger.pid (fun p =>
          { p with inBattle := true, battleId := some newBid })
        let ps2 := modifyPlayer ps1 acceptor.pid (fun p =>
          { p with inBattle := true, battleId := some newBid })
        { players := ps2, battles := st.battles ++ [b] }
  | _, _ => st

/-- The battle-attack handler (lines 755-791): look up sender and
battle, reject non-participants and non-active battles, then delegate
to performAttack and store the mutated battle. -/
def battleAttack (st : ServerState) (senderId bid : Nat) (isSpecial : Bool)
    (r : Nat) (coin : Bool) : ServerState :=
  match findPlayer st.players senderId, st.battles.find? (fun x => x.bid == bid) with
  | some player, some battle =>
      if ¬ isParticipant battle player.pid then st
      else if ¬ (battle.status = BStatus.active) then st
      else
        match performAttack st.players battle player.pid isSpecial r coin with
        | some (ps1, b1, _) => { players := ps1, battles := replaceBattle st.battles b1 }
        | none => st
  | _, _ => st

/-- The battle-cancel handler (lines 794-824): look up sender and
battle, reject non-participants (but not terminal battles - there is no
status check), cancel, clear both stored participants' flags, and drop
the battle from the collection. -/
def battleCancel (st : ServerState) (senderId bid : Nat) (reason : String) :
    ServerState :=
  match findPlayer st.players senderId, st.battles.find? (fun x => x.bid == bid) with
  | some player, some battle =>
      if ¬ isParticipant battle player.pid then st
      else
        let _ := cancelBattle battle reason
        let ps1 := modifyPlayer st.players battle.pl1.pid (fun p =>
          { p with inBattle := false, battleId := none })
        let ps2 := modifyPlayer ps1 battle.pl2.pid (fun p =>
          { p with inBattle := false, battleId := none })
        { players := ps2, battles := st.battles.filter (fun x => x.bid != battle.bid) }
  | _, _ => st

/-- A pending turn timer with handle `h` of the battle with id `bid`
fires: the callback runs on the battle object (still in the collection,
since every removal path first clears the timer). -/
def systemFire (st : ServerState) (bid h : Nat) : ServerState :=
  match st.battles.find? (fun x => x.bid == bid) with
  | some b =>
      if h ∈ b.pendingTimers then
        let res := timerFire st.players b h
        { players := res.1, battles := replaceBattle st.battles res.2 }
      else st
  | none => st

/-- The disconnect handler (lines 839-884): cancel every battle the
leaving connection participates in, clear the opponent's flags, drop
those battles, then remove the player's registry record. -/
def disconnectPlayer (st : ServerState) (sid : Nat) : ServerState :=
  let touched := st.battles.filter (fun b => decide (isParticipant b sid))
  let ps1 := touched.foldl (fun ps b =>
    modifyPlayer ps (getOpponent b sid).pid (fun p =>
      { p with inBattle := false, battleId := none })) st.players
  let bs := st.battles.filter (fun b => ¬ decide (isParticipant b sid))
  let ps2 := ps1.eraseP (fun p => p.pid == sid)
  { players := ps2, battles := bs }

/-- The battle-decline handler (lines 742-752), embedded with an
explicit error outcome: when the named challenger is registered the
handler reads decliner.name with no guard, so a sender without a
registry record makes that dereference fail (Except.error models the
thrown TypeError); the ok payload is the notification target id, the
decliner name used, and the reason. -/
def battleDecline (ps : List BPlayerRec) (senderId challengerId : Nat)
    (reason : Option String) : Except Unit (Option (Nat × String × String)) :=
  match findPlayer ps challengerId with
  | some challenger =>
      match findPlayer ps senderId with
      | some decliner =>
          Except.ok (some (challenger.pid, decliner.name,
            reason.getD "declined by player"))
      | none => Except.error ()
  | none => Except.ok none

/-- The empty initial state: no connections, no battles. -/
def initState : ServerState :=
  { players := [], battles := [] }

/-- One serialized event-loop step: the state-mutating inbound events
(player-join, battle-accept, battle-attack, battle-cancel, disconnect)
and the turn-timer callback. Events that never mutate state
(battle-challenge, battle-decline, battle-info, get-players) are
omitted, as are the chat/clan/task handlers, which never touch battles
and touch the registry only through resource rewards. -/
inductive Step : ServerState → ServerState → Prop
  | join (st : ServerState) (sid : Nat) (reqName : String) (res : Int)
      (cp : Nat) (suffix : Nat) :
      Step st (joinPlayer st sid reqName res cp suffix)
  | accept (st : ServerState) (senderId challengerId newBid : Nat) :
      Step st (battleAccept st senderId challengerId newBid)
  | attack (st : ServerState) (senderId bid : Nat) (isSpecial : Bool)
      (r : Nat) (coin : Bool) :
      Step st (battleAttack st senderId bid isSpecial r coin)
  | cancel (st : ServerState) (senderId bid : Nat) (reason : String) :
      Step st (battleCancel st senderId bid reason)
  | fire (st : ServerState) (bid h : Nat) :
      Step st (systemFire st bid h)
  | leave (st : ServerState) (sid : Nat) :
      Step st (disconnectPlayer st sid)

/-- States reachable from the empty server by serialized events. -/
inductive Reachable : ServerState → Prop
  | init : Reachable initState
  | step {st st2 : ServerState} : Reachable st → Step st st2 → Reachable st2

/-- Demo trace, step 0: Alice (id 1, 100 resources, click power 1000)
joins the empty server. -/
def demoState0 : ServerState :=
  joinPlayer initState 1 "Alice" 100 1000 500

/-- Demo trace, step 1: Bob (id 2, 50 resources, click power 1) joins. -/
def demoState1 : ServerState :=
  joinPlayer demoState0 2 "Bob" 50 1 500

/-- Demo trace, step 2: Bob accepts Alice's challenge; battle 7 starts
with Alice as player1 and first to move, and the turn timer armed. -/
def demoState2 : ServerState :=
  battleAccept demoState1 2 1 7

/-- Demo trace, step 3a: Alice lands a special attack with the maximal
variance draw r = 50: damage 25 + 100 + 25 = 150, Bob's health drops
from 100 to 0, the battle finishes with Alice as winner and the reward
50 + 5 * 0 credited (Alice: 100 - 25 + 50 = 125 resources). -/
def demoState3 : ServerState :=
  battleAttack demoState2 1 7 true 50 false

/-- Demo trace, step 3b (alternative): Alice attacks normally with the
minimal variance draw, damage 88, Bob survives at 12; the battle stays
active and the turn passes to Bob. -/
def demoState3b : ServerState :=
  battleAttack demoState2 1 7 false 0 false

/-- Demo trace, step 4: Alice cancels the already finished battle. -/
def demoState4 : ServerState :=
  battleCancel demoState3 1 7 "cancel after finish"

/-- Health bounds invariant for one battle: both stored healths are in
the interval [0, MAX_HEALTH]. -/
def battleHealthOk (b : Battle) : Prop :=
  0 ≤ b.health1 ∧ b.health1 ≤ 100 ∧ 0 ≤ b.health2 ∧ b.health2 ≤ 100

instance battleHealthOk.dec (b : Battle) : Decidable (battleHealthOk b) := by
  unfold battleHealthOk
  infer_instance

/-- Timer sanity invariant for one battle: every still-pending timer is
the one named by the stored handle, and at most one is pending, so a
battle can never have two timeouts racing for it. -/
def battleTimerOk (b : Battle) : Prop :=
  (∀ h ∈ b.pendingTimers, b.turnTimer = some h) ∧ b.pendingTimers.length ≤ 1

instance battleTimerOk.dec (b : Battle) : Decidable (battleTimerOk b) := by
  unfold battleTimerOk
  infer_instance

/-- Combined per-battle invariant. -/
def battleOk (b : Battle) : Prop :=
  battleHealthOk b ∧ battleTimerOk b

instance battleOk.dec (b : Battle) : Decidable (battleOk b) := by
  unfold battleOk
  infer_instance

/-- Every battle in the live collection satisfies the invariant. -/
def stateOk (st : ServerState) : Prop :=
  ∀ b ∈ st.battles, battleOk b

instance stateOk.dec (st : ServerState) : Decidable (stateOk st) := by
  unfold stateOk
  infer_instance

lemma clearTimer_health1 (b : Battle) : (clearTimer b).health1 = b.health1 := rfl

lemma clearTimer_health2 (b : Battle) : (clearTimer b).health2 = b.health2 := rfl

lemma clearTimer_status (b : Battle) : (clearTimer b).status = b.status := rfl

lemma clearTimer_winner (b : Battle) : (clearTimer b).winner = b.winner := rfl

lemma clearTimer_turn (b : Battle) : (clearTimer b).turn = b.turn := rfl

lemma clearTimer_currentPlayer (b : Battle) : (clearTimer b).currentPlayer = b.currentPlayer := rfl

lemma clearTimer_turnTimer (b : Battle) : (clearTimer b).turnTimer = b.turnTimer := rfl

lemma clearTimer_timerGen (b : Battle) : (clearTimer b).timerGen = b.timerGen := rfl

lemma clearTimer_actions (b : Battle) : (clearTimer b).actions = b.actions := rfl

lemma clearTimer_pend_mem {b : Battle} {x : Nat}
    (hx : x ∈ (clearTimer b).pendingTimers) : x ∈ b.pendingTimers := by
  unfold clearTimer at hx
  simp only at hx
  cases htt : b.turnTimer with
  | none => rw [htt] at hx; exact hx
  | some h => rw [htt] at hx; exact (List.mem_filter.mp hx).1

lemma clearTimer_pend_len (b : Battle) :
    (clearTimer b).pendingTimers.length ≤ b.pendingTimers.length := by
  unfold clearTimer
  simp only
  cases htt : b.turnTimer with
  | none => exact le_refl _
  | some h => exact List.length_filter_le _ _

lemma battleTimerOk_clearTimer {b : Battle} (hb : battleTimerOk b) :
    battleTimerOk (clearTimer b) := by
  obtain ⟨h1, h2⟩ := hb
  refine ⟨fun x hx => ?_, le_trans (clearTimer_pend_len b) h2⟩
  rw [clearTimer_turnTimer]
  exact h1 x (clearTimer_pend_mem hx)

lemma battleHealthOk_clearTimer {b : Battle} (hb : battleHealthOk b) :
    battleHealthOk (clearTimer b) := by
  unfold battleHealthOk at *
  rw [clearTimer_health1, clearTimer_health2]
  exact hb

lemma startTurnTimer_health1 (b : Battle) : (startTurnTimer b).health1 = b.health1 := rfl

lemma startTurnTimer_health2 (b : Battle) : (startTurnTimer b).health2 = b.health2 := rfl

lemma startTurnTimer_status (b : Battle) : (startTurnTimer b).status = b.status := rfl

lemma startTurnTimer_turnTimer (b : Battle) :
    (startTurnTimer b).turnTimer = some (b.timerGen + 1) := rfl

lemma startTurnTimer_timerGen (b : Battle) :
    (startTurnTimer b).timerGen = b.timerGen + 1 := rfl

/-- Under the timer invariant, arming wipes the previously pending
timer (if any) and leaves exactly the fresh one pending. -/
lemma startTurnTimer_pend {b : Battle}
    (h1 : ∀ x ∈ b.pendingTimers, b.turnTimer = some x) :
    (startTurnTimer b).pendingTimers = [b.timerGen + 1] := by
  show (clearTimer b).pendingTimers ++ [b.timerGen + 1] = [b.timerGen + 1]
  unfold clearTimer
  simp only
  cases htt : b.turnTimer with
  | none =>
      have hnil : b.pendingTimers = [] := by
        cases hp : b.pendingTimers with
        | nil => rfl
        | cons a t =>
            have := h1 a (by rw [hp]; exact List.mem_cons_self a t)
            rw [htt] at this
            cases this
      simp [hnil]
  | some h =>
      have hfil : b.pendingTimers.filter (fun x => x != h) = [] := by
        apply List.filter_eq_nil_iff.mpr
        intro a ha
        have := h1 a ha
        rw [htt] at this
        have : a = h := by injection this with hh; exact hh.symm
        simp [this]
      simp [hfil]

lemma battleTimerOk_startTurnTimer {b : Battle} (hb : battleTimerOk b) :
    battleTimerOk (startTurnTimer b) := by
  refine ⟨fun x hx => ?_, ?_⟩
  · rw [startTurnTimer_pend hb.1] at hx
    rw [startTurnTimer_turnTimer]
    rcases List.mem_singleton.mp hx with rfl
    rfl
  · rw [startTurnTimer_pend hb.1]
    exact le_refl _

lemma battleHealthOk_startTurnTimer {b : Battle} (hb : battleHealthOk b) :
    battleHealthOk (startTurnTimer b) := by
  unfold battleHealthOk at *
  rw [startTurnTimer_health1, startTurnTimer_health2]
  exact hb

lemma getHealth_bounds {b : Battle} (hb : battleHealthOk b) (i : Nat) :
    0 ≤ getHealth b i ∧ getHealth b i ≤ 100 := by
  obtain ⟨a1, a2, a3, a4⟩ := hb
  unfold getHealth
  split <;> exact ⟨by omega, by omega⟩

lemma battleHealthOk_setHealth {b : Battle} {i : Nat} {v : Int}
    (hb : battleHealthOk b) (h0 : 0 ≤ v) (h1 : v ≤ 100) :
    battleHealthOk (setHealth b i v) := by
  obtain ⟨a1, a2, a3, a4⟩ := hb
  unfold battleHealthOk setHealth
  simp only
  refine ⟨?_, ?_, ?_, ?_⟩ <;> split <;> omega

lemma setHealth_pendingTimers (b : Battle) (i : Nat) (v : Int) :
    (setHealth b i v).pendingTimers = b.pendingTimers := rfl

lemma setHealth_turnTimer (b : Battle) (i : Nat) (v : Int) :
    (setHealth b i v).turnTimer = b.turnTimer := rfl

lemma battleTimerOk_setHealth {b : Battle} {i : Nat} {v : Int}
    (hb : battleTimerOk b) : battleTimerOk (setHealth b i v) := by
  unfold battleTimerOk at *
  rw [setHealth_pendingTimers, setHealth_turnTimer]
  exact hb

lemma attackDamage_nonneg (sp : Bool) (cp r : Nat) : 0 ≤ attackDamage sp cp r := by
  unfold attackDamage damageVariance
  have hd : (attackBase sp + clickBonus cp) / 5 ≤ attackBase sp + clickBonus cp :=
    Nat.div_le_self _ _
  push_cast
  omega

lemma battleOk_finishBattle {ps : List BPlayerRec} {b : Battle} {w : Nat}
    (hb : battleOk b) : battleOk (finishBattle ps b w).2 := by
  obtain ⟨hh, ht⟩ := hb
  have hh2 : battleHealthOk
      (clearTimer { b with status := BStatus.finished, winner := some w }) :=
    battleHealthOk_clearTimer hh
  have ht2 : battleTimerOk
      (clearTimer { b with status := BStatus.finished, winner := some w }) :=
    battleTimerOk_clearTimer ht
  exact ⟨hh2, ht2⟩

lemma battleOk_finishedBattle {b : Battle} (hb : battleOk b) (w : Nat) :
    battleOk (clearTimer { b with status := BStatus.finished, winner := some w }) := by
  obtain ⟨hh, ht⟩ := hb
  exact ⟨battleHealthOk_clearTimer hh, battleTimerOk_clearTimer ht⟩

lemma battleOk_cancelBattle {b : Battle} (hb : battleOk b) (reason : String) :
    battleOk (cancelBattle b reason) := by
  obtain ⟨hh, ht⟩ := hb
  have hh2 : battleHealthOk (clearTimer { b with status := BStatus.cancelled }) :=
    battleHealthOk_clearTimer hh
  have ht2 : battleTimerOk (clearTimer { b with status := BStatus.cancelled }) :=
    battleTimerOk_clearTimer ht
  exact ⟨hh2, ht2⟩

lemma battleOk_applyAttackCore (ps : List BPlayerRec) (b : Battle) (a : Nat)
    (sp : Bool) (r : Nat) (coin : Bool) (hb : battleOk b) :
    battleOk (applyAttackCore ps b a sp r coin).2.1 := by
  obtain ⟨hh, ht⟩ := hb
  have hd := attackDamage_nonneg sp (liveRec ps (attackerOf b a)).clickPower r
  have hgd := getHealth_bounds hh (getOpponent b a).pid
  have h0 : (0 : Int) ≤ max 0 (getHealth b (getOpponent b a).pid
      - attackDamage sp (liveRec ps (attackerOf b a)).clickPower r) := le_max_left _ _
  have h1 : max 0 (getHealth b (getOpponent b a).pid
      - attackDamage sp (liveRec ps (attackerOf b a)).clickPower r) ≤ 100 := by
    apply max_le
    · norm_num
    · omega
  have hbset : battleOk (setHealth b (getOpponent b a).pid
      (max 0 (getHealth b (getOpponent b a).pid
        - attackDamage sp (liveRec ps (attackerOf b a)).clickPower r))) :=
    ⟨battleHealthOk_setHealth hh h0 h1, battleTimerOk_setHealth ht⟩
  unfold applyAttackCore
  dsimp only
  split
  · exact battleOk_finishedBattle hbset a
  · split
    · exact battleOk_finishedBattle hbset 0
    · exact hbset

lemma battleOk_performAttack {ps : List BPlayerRec} {b : Battle} {a : Nat}
    {sp : Bool} {r : Nat} {coin : Bool}
    {ps2 : List BPlayerRec} {b2 : Battle} {act : BAction}
    (hb : battleOk b)
    (hres : performAttack ps b a sp r coin = some (ps2, b2, act)) :
    battleOk b2 := by
  unfold performAttack at hres
  split at hres
  · split at hres
    · split at hres
      · cases hres
      · have hcore := battleOk_applyAttackCore ps b a sp r coin hb
        injection hres with heq
        rw [heq] at hcore
        exact hcore
    · cases hres
  · cases hres

lemma battleOk_timerFire {ps : List BPlayerRec} {b : Battle} {h : Nat}
    (hb : battleOk b) : battleOk (timerFire ps b h).2 := by
  obtain ⟨hh, ht⟩ := hb
  have hb0 : battleOk { b with pendingTimers := b.pendingTimers.filter (fun x => x != h) } := by
    refine ⟨hh, fun x hx => ?_, ?_⟩
    · exact ht.1 x (List.mem_filter.mp hx).1
    · exact le_trans (List.length_filter_le _ _) ht.2
  obtain ⟨hh0, ht0⟩ := hb0
  have hgd := getHealth_bounds hh0
    ({ b with pendingTimers := b.pendingTimers.filter (fun x => x != h) } : Battle).currentPlayer
  have h0 : (0 : Int) ≤ max 0 (getHealth
      { b with pendingTimers := b.pendingTimers.filter (fun x => x != h) }
      ({ b with pendingTimers := b.pendingTimers.filter (fun x => x != h) } : Battle).currentPlayer
      - 5) := le_max_left _ _
  have h1 : max 0 (getHealth
      { b with pendingTimers := b.pendingTimers.filter (fun x => x != h) }
      ({ b with pendingTimers := b.pendingTimers.filter (fun x => x != h) } : Battle).currentPlayer
      - 5) ≤ 100 := by
    apply max_le
    · norm_num
    · omega
  have hbset : battleOk (setHealth
      { b with pendingTimers := b.pendingTimers.filter (fun x => x != h) }
      ({ b with pendingTimers := b.pendingTimers.filter (fun x => x != h) } : Battle).currentPlayer
      (max 0 (getHealth
        { b with pendingTimers := b.pendingTimers.filter (fun x => x != h) }
        ({ b with pendingTimers := b.pendingTimers.filter (fun x => x != h) } : Battle).currentPlayer
        - 5))) :=
    ⟨battleHealthOk_setHealth hh0 h0 h1, battleTimerOk_setHealth ht0⟩
  unfold timerFire
  dsimp only
  split
  · split
    · exact battleOk_finishedBattle hbset 0
    · exact ⟨battleHealthOk_startTurnTimer hbset.1, battleTimerOk_startTurnTimer hbset.2⟩
  · exact ⟨hh0, ht0⟩

lemma joinPlayer_battles (st : ServerState) (sid : Nat) (n : String) (res : Int)
    (cp suf : Nat) : (joinPlayer st sid n res cp suf).battles = st.battles := by
  unfold joinPlayer
  cases findPlayer st.players sid <;> rfl

lemma replaceBattle_mem {bs : List Battle} {b x : Battle}
    (hx : x ∈ replaceBattle bs b) : x = b ∨ x ∈ bs := by
  unfold replaceBattle at hx
  rcases List.mem_map.mp hx with ⟨y, hy, hxy⟩
  by_cases h : y.bid = b.bid
  · rw [if_pos h] at hxy
    exact Or.inl hxy.symm
  · rw [if_neg h] at hxy
    exact Or.inr (hxy ▸ hy)

lemma battleOk_newBattle (bid : Nat) (p1 p2 : BPlayerRec) :
    battleOk (startTurnTimer (mkBattle bid p1 p2)) := by
  unfold battleOk battleHealthOk battleTimerOk startTurnTimer mkBattle clearTimer
  norm_num

lemma stateOk_joinPlayer {st : ServerState} (h : stateOk st) (sid : Nat)
    (n : String) (res : Int) (cp suf : Nat) :
    stateOk (joinPlayer st sid n res cp suf) := by
  intro b hb
  rw [joinPlayer_battles] at hb
  exact h b hb

lemma stateOk_battleAccept {st : ServerState} (h : stateOk st) (s c bidn : Nat) :
    stateOk (battleAccept st s c bidn) := by
  intro b hb
  unfold battleAccept at hb
  split at hb
  · rename_i acceptor challenger hfa hfc
    split at hb
    · exact h b hb
    · split at hb
      · exact h b hb
      · rcases List.mem_append.mp hb with hmem | hmem
        · exact h b hmem
        · rw [List.mem_singleton.mp hmem]
          exact battleOk_newBattle bidn challenger acceptor
  · exact h b hb

lemma stateOk_battleAttack {st : ServerState} (h : stateOk st) (s bid : Nat)
    (sp : Bool) (r : Nat) (coin : Bool) :
    stateOk (battleAttack st s bid sp r coin) := by
  intro b hb
  unfold battleAttack at hb
  split at hb
  · rename_i player battle hfp hfb
    split at hb
    · exact h b hb
    · split at hb
      · exact h b hb
      · split at hb
        · rename_i ps1 b1 act hsome
          rcases replaceBattle_mem hb with rfl | hmem
          · have hbt : battle ∈ st.battles := List.mem_of_find?_eq_some hfb
            exact battleOk_performAttack (h battle hbt) hsome
          · exact h b hmem
        · exact h b hb
  · exact h b hb

lemma stateOk_battleCancel {st : ServerState} (h : stateOk st) (s bid : Nat)
    (reason : String) : stateOk (battleCancel st s bid reason) := by
  intro b hb
  unfold battleCancel at hb
  split at hb
  · split at hb
    · exact h b hb
    · exact h b (List.mem_of_mem_filter hb)
  · exact h b hb

lemma stateOk_systemFire {st : ServerState} (h : stateOk st) (bid hh : Nat) :
    stateOk (systemFire st bid hh) := by
  intro b hb
  unfold systemFire at hb
  split at hb
  · rename_i battle hfb
    split at hb
    · rcases replaceBattle_mem hb with rfl | hmem
      · have hbt : battle ∈ st.battles := List.mem_of_find?_eq_some hfb
        exact battleOk_timerFire (h battle hbt)
      · exact h b hmem
    · exact h b hb
  · exact h b hb

lemma stateOk_disconnectPlayer {st : ServerState} (h : stateOk st) (sid : Nat) :
    stateOk (disconnectPlayer st sid) := by
  intro b hb
  unfold disconnectPlayer at hb
  dsimp only at hb
  exact h b (List.mem_of_mem_filter hb)

lemma stateOk_step {st st2 : ServerState} (h : stateOk st) (hs : Step st st2) :
    stateOk st2 := by
  cases hs with
  | join sid n res cp suf => exact stateOk_joinPlayer h sid n res cp suf
  | accept s c bidn => exact stateOk_battleAccept h s c bidn
  | attack s bid sp r coin => exact stateOk_battleAttack h s bid sp r coin
  | cancel s bid reason => exact stateOk_battleCancel h s bid reason
  | fire bid hh => exact stateOk_systemFire h bid hh
  | leave sid => exact stateOk_disconnectPlayer h sid

/-- Shared invariant: every reachable server state has all live battles
with health in [0, 100] and a unique pending timer. -/
lemma reachable_stateOk {st : ServerState} (h : Reachable st) : stateOk st := by
  induction h with
  | init => intro b hb; cases hb
  | step hr hs ih => exact stateOk_step ih hs

lemma findPlayer_modifyPlayer_self (ps : List BPlayerRec) (pid : Nat)
    (f : BPlayerRec → BPlayerRec) (hf : ∀ p, (f p).pid = p.pid) :
    findPlayer (modifyPlayer ps pid f) pid = (findPlayer ps pid).map f := by
  induction ps with
  | nil => rfl
  | cons p rest ih =>
      by_cases h : p.pid = pid
      · show findPlayer (if p.pid = pid then f p :: rest else p :: modifyPlayer rest pid f) pid
          = (findPlayer (p :: rest) pid).map f
        rw [if_pos h]
        unfold findPlayer
        rw [List.find?_cons_of_pos _ (by simp [hf, h]),
          List.find?_cons_of_pos _ (by simp [h])]
        rfl
      · show findPlayer (if p.pid = pid then f p :: rest else p :: modifyPlayer rest pid f) pid
          = (findPlayer (p :: rest) pid).map f
        rw [if_neg h]
        unfold findPlayer
        rw [List.find?_cons_of_neg _ (by simp [h]),
          List.find?_cons_of_neg _ (by simp [h])]
        exact ih

lemma findPlayer_modifyPlayer_other (ps : List BPlayerRec) (pid q : Nat)
    (f : BPlayerRec → BPlayerRec) (hf : ∀ p, (f p).pid = p.pid) (hne : q ≠ pid) :
    findPlayer (modifyPlayer ps pid f) q = findPlayer ps q := by
  induction ps with
  | nil => rfl
  | cons p rest ih =>
      by_cases h : p.pid = pid
      · show findPlayer (if p.pid = pid then f p :: rest else p :: modifyPlayer rest pid f) q
          = findPlayer (p :: rest) q
        rw [if_pos h]
        unfold findPlayer
        rw [List.find?_cons_of_neg _ (by simp [hf, h]; omega),
          List.find?_cons_of_neg _ (by simp [h]; omega)]
      · show findPlayer (if p.pid = pid then f p :: rest else p :: modifyPlayer rest pid f) q
          = findPlayer (p :: rest) q
        rw [if_neg h]
        by_cases hq : p.pid = q
        · unfold findPlayer
          rw [List.find?_cons_of_pos _ (by simp [hq]),
            List.find?_cons_of_pos _ (by simp [hq])]
        · unfold findPlayer
          rw [List.find?_cons_of_neg _ (by simp [hq]),
            List.find?_cons_of_neg _ (by simp [hq])]
          exact ih

lemma findPlayer_addRes_self (ps : List BPlayerRec) (pid : Nat) (d : Int) :
    findPlayer (addRes ps pid d) pid =
      (findPlayer ps pid).map (fun p => { p with resources := p.resources + d }) :=
  findPlayer_modifyPlayer_self ps pid _ (fun _ => rfl)

lemma findPlayer_addRes_other (ps : List BPlayerRec) (pid q : Nat) (d : Int)
    (hne : q ≠ pid) : findPlayer (addRes ps pid d) q = findPlayer ps q :=
  findPlayer_modifyPlayer_other ps pid q _ (fun _ => rfl) hne

lemma liveRec_eq {ps : List BPlayerRec} {snap rec : BPlayerRec}
    (h : findPlayer ps snap.pid = some rec) : liveRec ps snap = rec := by
  unfold liveRec
  rw [h]
  rfl

/-- Damage value carried by an action record. -/
def actDamage : BAction → Option Int
  | BAction.attack _ _ _ d _ _ _ _ => some d
  | BAction.timeout _ d _ _ _ => some d
  | BAction.cancel _ => none

/-- Cost value carried by an attack action record. -/
def actCost : BAction → Option Int
  | BAction.attack _ _ _ _ c _ _ _ => some c
  | _ => none

/-- battleEnd flag of an action record. -/
def actEnd : BAction → Bool
  | BAction.attack _ _ _ _ _ _ e _ => e
  | BAction.timeout _ _ _ e _ => e
  | BAction.cancel _ => false

/-- Rejection characterization of performAttack: the failure signal is
returned exactly for the three guards of lines 177-186. -/
lemma performAttack_none_iff (ps : List BPlayerRec) (b : Battle) (a : Nat)
    (sp : Bool) (r : Nat) (coin : Bool) :
    performAttack ps b a sp r coin = none ↔
      (b.status ≠ BStatus.active ∨ b.currentPlayer ≠ a ∨
        (liveRec ps (attackerOf b a)).resources < attackCost sp) := by
  unfold performAttack
  split_ifs with h1 h2 h3
  · simp [h1, h2, h3]
  · simp [h1, h2, h3]
  · simp [h1, h2]
  · simp [h1]

lemma setHealth_turn (b : Battle) (i : Nat) (v : Int) :
    (setHealth b i v).turn = b.turn := rfl

lemma setHealth_actions (b : Battle) (i : Nat) (v : Int) :
    (setHealth b i v).actions = b.actions := rfl

lemma setHealth_status (b : Battle) (i : Nat) (v : Int) :
    (setHealth b i v).status = b.status := rfl

lemma setHealth_winner (b : Battle) (i : Nat) (v : Int) :
    (setHealth b i v).winner = b.winner := rfl

lemma setHealth_currentPlayer (b : Battle) (i : Nat) (v : Int) :
    (setHealth b i v).currentPlayer = b.currentPlayer := rfl

lemma setHealth_timerGen (b : Battle) (i : Nat) (v : Int) :
    (setHealth b i v).timerGen = b.timerGen := rfl

/-- Explicit result of an accepted attack that neither depletes the
defender nor reaches the turn limit: cost deducted once, health
written, action appended, turn passed, timers untouched. -/
lemma applyAttackCore_nonEnding {ps : List BPlayerRec} {b : Battle} {a : Nat}
    {sp : Bool} {r : Nat} {coin : Bool}
    (hsurv : ¬ max 0 (getHealth b (getOpponent b a).pid
      - attackDamage sp (liveRec ps (attackerOf b a)).clickPower r) ≤ 0)
    (hturn : b.turn + 1 < 20) :
    applyAttackCore ps b a sp r coin =
      (addRes ps a (-(attackCost sp)),
       { setHealth b (getOpponent b a).pid
           (max 0 (getHealth b (getOpponent b a).pid
             - attackDamage sp (liveRec ps (attackerOf b a)).clickPower r)) with
         actions := b.actions ++ [BAction.attack sp (liveRec ps (attackerOf b a)).name
           (liveRec ps (getOpponent b a)).name
           (attackDamage sp (liveRec ps (attackerOf b a)).clickPower r)
           (attackCost sp) b.turn false none]
         currentPlayer := (getOpponent b a).pid
         turn := b.turn + 1 },
       BAction.attack sp (liveRec ps (attackerOf b a)).name
         (liveRec ps (getOpponent b a)).name
         (attackDamage sp (liveRec ps (attackerOf b a)).clickPower r)
         (attackCost sp) b.turn false none) := by
  unfold applyAttackCore
  dsimp only
  rw [if_neg hsurv]
  simp only [setHealth_turn]
  rw [if_neg (by omega : ¬ 20 ≤ b.turn + 1)]
  rfl

/-- Explicit result of an accepted attack that drives the defender's
health to 0: cost deducted once, battle finished with the attacker as
winner, the reward 50 + 5 * turn credited on top, battleEnd marked. -/
lemma applyAttackCore_ending {ps : List BPlayerRec} {b : Battle} {a : Nat}
    {sp : Bool} {r : Nat} {coin : Bool}
    (hkill : max 0 (getHealth b (getOpponent b a).pid
      - attackDamage sp (liveRec ps (attackerOf b a)).clickPower r) ≤ 0) :
    applyAttackCore ps b a sp r coin =
      (addRes (addRes ps a (-(attackCost sp))) a (50 + (b.turn : Int) * 5),
       { clearTimer { setHealth b (getOpponent b a).pid
             (max 0 (getHealth b (getOpponent b a).pid
               - attackDamage sp (liveRec ps (attackerOf b a)).clickPower r)) with
           status := BStatus.finished
           winner := some a } with
         actions := b.actions ++ [BAction.attack sp (liveRec ps (attackerOf b a)).name
           (liveRec ps (getOpponent b a)).name
           (attackDamage sp (liveRec ps (attackerOf b a)).clickPower r)
           (attackCost sp) b.turn true (some (liveRec ps (attackerOf b a)).name)] },
       BAction.attack sp (liveRec ps (attackerOf b a)).name
         (liveRec ps (getOpponent b a)).name
         (attackDamage sp (liveRec ps (attackerOf b a)).clickPower r)
         (attackCost sp) b.turn true (some (liveRec ps (attackerOf b a)).name)) := by
  unfold applyAttackCore finishBattle
  dsimp only
  rw [if_pos hkill]
  rfl

/-- Accepted attacks always record the configured cost and the computed
damage in the action log entry. -/
lemma applyAttackCore_act (ps : List BPlayerRec) (b : Battle) (a : Nat)
    (sp : Bool) (r : Nat) (coin : Bool) :
    actCost (applyAttackCore ps b a sp r coin).2.2 = some (attackCost sp) ∧
    actDamage (applyAttackCore ps b a sp r coin).2.2 =
      some (attackDamage sp (liveRec ps (attackerOf b a)).clickPower r) := by
  unfold applyAttackCore
  dsimp only
  split
  · exact ⟨rfl, rfl⟩
  · split
    · exact ⟨rfl, rfl⟩
    · exact ⟨rfl, rfl⟩

/-- An accepted performAttack is exactly an applyAttackCore result. -/
lemma performAttack_some {ps ps2 : List BPlayerRec} {b b2 : Battle} {a : Nat}
    {sp : Bool} {r : Nat} {coin : Bool} {act : BAction}
    (hres : performAttack ps b a sp r coin = some (ps2, b2, act)) :
    applyAttackCore ps b a sp r coin = (ps2, b2, act) := by
  unfold performAttack at hres
  split_ifs at hres
  exact Option.some.inj hres

/-- Placeholder registry record used only as a List.getD default in
closed witness statements. -/
def defaultRec : BPlayerRec :=
  { pid := 0, name := "", resources := 0, clickPower := 0,
    inBattle := false, battleId := none }

/-- C8: in every reachable server state, each battle's health values
lie in [0, MAX_HEALTH] = [0, 100]: construction sets both to 100 and
every health-reducing operation (the performAttack damage application
and the 5-damage timeout penalty) floors the result at 0, so no
snapshot ever shows a negative health. -/
theorem thm_C8 {st : ServerState} (h : Reachable st) :
    ∀ b ∈ st.battles,
      (0 ≤ b.health1 ∧ b.health1 ≤ 100) ∧ (0 ≤ b.health2 ∧ b.health2 ≤ 100) ∧
      ∀ pid : Nat, isParticipant b pid →
        0 ≤ getHealth b pid ∧ getHealth b pid ≤ 100 := by
  intro b hb
  obtain ⟨⟨a1, a2, a3, a4⟩, -⟩ := reachable_stateOk h b hb
  exact ⟨⟨a1, a2⟩, ⟨a3, a4⟩, fun pid _ => getHealth_bounds ⟨a1, a2, a3, a4⟩ pid⟩

theorem thm_C8_witness :
    0 ≤ (demoState3.battles.getD 0 (mkBattle 0 defaultRec defaultRec)).health1 ∧
    (demoState3.battles.getD 0 (mkBattle 0 defaultRec defaultRec)).health1 ≤ 100 ∧
    0 ≤ (demoState3.battles.getD 0 (mkBattle 0 defaultRec defaultRec)).health2 ∧
    (demoState3.battles.getD 0 (mkBattle 0 defaultRec defaultRec)).health2 ≤ 100 := by
  have hr : Reachable demoState3 :=
    Reachable.step (Reachable.step (Reachable.step (Reachable.step Reachable.init
      (Step.join initState 1 "Alice" 100 1000 500))
      (Step.join demoState0 2 "Bob" 50 1 500))
      (Step.accept demoState1 2 1 7))
      (Step.attack demoState2 1 7 true 50 false)
  have hm : demoState3.battles.getD 0 (mkBattle 0 defaultRec defaultRec)
      ∈ demoState3.battles := by decide
  obtain ⟨⟨a1, a2⟩, ⟨a3, a4⟩, -⟩ := thm_C8 hr _ hm
  exact ⟨a1, a2, a3, a4⟩

/-- C2 (code bug evidence): when battle 7 finishes through health
depletion, it is NOT removed from the live collection and both
participants keep inBattle = true with the stale battle id - the
finish path performs no manager cleanup. -/
theorem thm_C2 :
    demoState3.battles.map (fun b => (b.bid, b.status, b.winner))
      = [(7, BStatus.finished, some 1)] ∧
    (findPlayer demoState3.players 1).map (fun p => (p.inBattle, p.battleId))
      = some (true, some 7) ∧
    (findPlayer demoState3.players 2).map (fun p => (p.inBattle, p.battleId))
      = some (true, some 7) := by
  decide

/-- C1 (amended): on a non-active battle, performAttack always fails,
and a timer fire changes neither the registry nor any of the battle's
status, healths, turn, currentPlayer, winner; cancelBattle however
rewrites the status of ANY battle (including a finished one) to
cancelled, leaving the other listed fields unchanged. -/
theorem thm_C1 {b : Battle} (hb : b.status ≠ BStatus.active) :
    (∀ ps a sp r coin, performAttack ps b a sp r coin = none) ∧
    (∀ ps h, (timerFire ps b h).1 = ps ∧
      (timerFire ps b h).2.status = b.status ∧
      (timerFire ps b h).2.health1 = b.health1 ∧
      (timerFire ps b h).2.health2 = b.health2 ∧
      (timerFire ps b h).2.turn = b.turn ∧
      (timerFire ps b h).2.currentPlayer = b.currentPlayer ∧
      (timerFire ps b h).2.winner = b.winner) ∧
    (∀ reason, (cancelBattle b reason).status = BStatus.cancelled ∧
      (cancelBattle b reason).health1 = b.health1 ∧
      (cancelBattle b reason).health2 = b.health2 ∧
      (cancelBattle b reason).turn = b.turn ∧
      (cancelBattle b reason).currentPlayer = b.currentPlayer ∧
      (cancelBattle b reason).winner = b.winner) := by
  refine ⟨?_, ?_, ?_⟩
  · intro ps a sp r coin
    unfold performAttack
    rw [if_neg hb]
  · intro ps h
    unfold timerFire
    dsimp only
    rw [if_neg hb]
    exact ⟨rfl, rfl, rfl, rfl, rfl, rfl, rfl⟩
  · intro reason
    exact ⟨rfl, rfl, rfl, rfl, rfl, rfl⟩

/-- C1 counterexample: a reachable battle that finished by health
depletion still has cancelBattle rewriting its status to cancelled, so
the status of a terminal battle IS changed by an operation, contrary to
the claim. -/
theorem thm_C1_cex :
    Reachable demoState3 ∧
    demoState3.battles.map (fun b => b.status) = [BStatus.finished] ∧
    demoState3.battles.map (fun b => (cancelBattle b "late cancel").status)
      = [BStatus.cancelled] := by
  refine ⟨?_, by decide, by decide⟩
  exact Reachable.step (Reachable.step (Reachable.step (Reachable.step Reachable.init
    (Step.join initState 1 "Alice" 100 1000 500))
    (Step.join demoState0 2 "Bob" 50 1 500))
    (Step.accept demoState1 2 1 7))
    (Step.attack demoState2 1 7 true 50 false)

theorem thm_C1_witness :
    performAttack [] (cancelBattle (mkBattle 3 defaultRec defaultRec) "seed") 0 false 0 false
      = none ∧
    (cancelBattle (cancelBattle (mkBattle 3 defaultRec defaultRec) "seed") "again").status
      = BStatus.cancelled := by
  have h := thm_C1 (b := cancelBattle (mkBattle 3 defaultRec defaultRec) "seed") (by decide)
  exact ⟨h.1 [] 0 false 0 false, (h.2.2 "again").1⟩

lemma getHealth_filterPend (b : Battle) (h pid : Nat) :
    getHealth { b with pendingTimers := b.pendingTimers.filter (fun x => x != h) } pid
      = getHealth b pid := rfl

lemma finishBattle_status (ps : List BPlayerRec) (b : Battle) (w : Nat) :
    (finishBattle ps b w).2.status = BStatus.finished := rfl

lemma finishBattle_winner (ps : List BPlayerRec) (b : Battle) (w : Nat) :
    (finishBattle ps b w).2.winner = some w := rfl

lemma finishBattle_players (ps : List BPlayerRec) (b : Battle) (w : Nat) :
    (finishBattle ps b w).1 = addRes ps w (50 + (b.turn : Int) * 5) := rfl

/-- C3 (amended): the turn timer is armed on battle start and re-armed
after every non-terminal TIMEOUT turn advance, and arming always first
clears the previously pending timer (so reachable states never hold two
pending timers for one battle); but a successful non-battle-ending
performAttack does NOT re-arm the timer: it leaves the pending-timer
state of the battle completely unchanged. -/
theorem thm_C3 :
    (∀ st : ServerState, Reachable st → ∀ b ∈ st.battles, battleTimerOk b) ∧
    (∀ (bid : Nat) (p1 p2 : BPlayerRec),
      (startTurnTimer (mkBattle bid p1 p2)).pendingTimers = [1]) ∧
    (∀ b : Battle, (∀ x ∈ b.pendingTimers, b.turnTimer = some x) →
      (startTurnTimer b).pendingTimers = [b.timerGen + 1]) ∧
    (∀ (ps : List BPlayerRec) (b : Battle) (h : Nat),
      b.status = BStatus.active →
      (∀ x ∈ b.pendingTimers, b.turnTimer = some x) →
      5 < getHealth b b.currentPlayer →
      (timerFire ps b h).2.pendingTimers = [b.timerGen + 1] ∧
      (timerFire ps b h).2.timerGen = b.timerGen + 1) ∧
    (∀ (ps : List BPlayerRec) (b : Battle) (a : Nat) (sp : Bool) (r : Nat)
      (coin : Bool) (ps2 : List BPlayerRec) (b2 : Battle) (act : BAction),
      performAttack ps b a sp r coin = some (ps2, b2, act) →
      b2.status = BStatus.active →
      b2.pendingTimers = b.pendingTimers ∧ b2.timerGen = b.timerGen ∧
        b2.turnTimer = b.turnTimer) := by
  refine ⟨?_, ?_, ?_, ?_, ?_⟩
  · intro st h b hb
    exact (reachable_stateOk h b hb).2
  · intro bid p1 p2
    rw [startTurnTimer_pend (by intro x hx; cases hx)]
    rfl
  · intro b h1
    exact startTurnTimer_pend h1
  · intro ps b h hst hinv hgt
    unfold timerFire
    dsimp only
    rw [if_pos hst]
    rw [getHealth_filterPend]
    rw [if_neg (by rw [max_le_iff]; omega :
      ¬ max 0 (getHealth b b.currentPlayer - 5) ≤ 0)]
    constructor
    · rw [startTurnTimer_pend (by
        intro x hx
        exact hinv x (List.mem_filter.mp hx).1)]
      rfl
    · rfl
  · intro ps b a sp r coin ps2 b2 act hres hact
    have heq := performAttack_some hres
    unfold applyAttackCore at heq
    dsimp only at heq
    split at heq
    · injection heq with hA hRest
      injection hRest with hB hC
      rw [← hB] at hact
      dsimp only at hact
      rw [finishBattle_status] at hact
      cases hact
    · split at heq
      · injection heq with hA hRest
        injection hRest with hB hC
        rw [← hB] at hact
        rw [finishBattle_status] at hact
        cases hact
      · injection heq with hA hRest
        injection hRest with hB hC
        rw [← hB]
        exact ⟨rfl, rfl, rfl⟩

/-- C3 counterexample: in the reachable state after battle 7 started
(timer generation 1 pending), Alice's successful NON-battle-ending
normal attack advances the turn (0 to 1, still active) but the pending
timer set and the generation counter are unchanged - no timer was
re-armed, contrary to the claim that every successful non-battle-ending
performAttack re-arms the 30-second timer. -/
theorem thm_C3_cex :
    Reachable demoState3b ∧
    demoState2.battles.map (fun b => (b.turn, b.pendingTimers, b.timerGen))
      = [(0, [1], 1)] ∧
    demoState3b.battles.map (fun b => (b.status, b.turn, b.pendingTimers, b.timerGen))
      = [(BStatus.active, 1, [1], 1)] := by
  refine ⟨?_, by decide, by decide⟩
  exact Reachable.step (Reachable.step (Reachable.step (Reachable.step Reachable.init
    (Step.join initState 1 "Alice" 100 1000 500))
    (Step.join demoState0 2 "Bob" 50 1 500))
    (Step.accept demoState1 2 1 7))
    (Step.attack demoState2 1 7 false 0 false)

theorem thm_C3_witness :
    (startTurnTimer (mkBattle 9 defaultRec defaultRec)).pendingTimers = [1] ∧
    (startTurnTimer (startTurnTimer (mkBattle 9 defaultRec defaultRec))).pendingTimers = [2] := by
  refine ⟨thm_C3.2.1 9 defaultRec defaultRec, ?_⟩
  have h := thm_C3.2.2.1 (startTurnTimer (mkBattle 9 defaultRec defaultRec)) (by decide)
  exact h.trans (by decide)

/-- The conditions the battle-accept handler actually re-checks: both
ids registered, neither flagged in battle, and the ACCEPTOR holding at
least ATTACK_COST = 10 resources. -/
def acceptChecksPass (st : ServerState) (s c : Nat) : Prop :=
  ∃ a ch, findPlayer st.players s = some a ∧ findPlayer st.players c = some ch ∧
    a.inBattle = false ∧ ch.inBattle = false ∧ 10 ≤ a.resources

/-- C4 (amended): battle-accept re-validates registration, the
in-battle flags and the ACCEPTOR's (not the challenger's) resource
balance; it never compares the two ids, so challenger = acceptor
passes. When any checked condition fails the state is returned
unchanged (no battle, no mutation); when they all hold a battle is
created with the challenger first, regardless of the challenger's
resources and of distinctness. -/
theorem thm_C4 (st : ServerState) (s c bidn : Nat) :
    (¬ acceptChecksPass st s c → battleAccept st s c bidn = st) ∧
    (acceptChecksPass st s c →
      ∃ a ch, findPlayer st.players s = some a ∧ findPlayer st.players c = some ch ∧
        (battleAccept st s c bidn).battles =
          st.battles ++ [startTurnTimer (mkBattle bidn ch a)]) := by
  constructor
  · intro hnot
    unfold battleAccept
    split
    · rename_i acceptor challenger hfa hfc
      split
      · rfl
      · split
        · rfl
        · rename_i hinb hres
          exfalso
          apply hnot
          refine ⟨acceptor, challenger, hfa, hfc, ?_, ?_, by omega⟩
          · simp only [Bool.or_eq_true, not_or] at hinb
            simpa using hinb.1
          · simp only [Bool.or_eq_true, not_or] at hinb
            simpa using hinb.2
    · rfl
  · rintro ⟨a, ch, hfa, hfc, hA, hC, hR⟩
    refine ⟨a, ch, hfa, hfc, ?_⟩
    unfold battleAccept
    rw [hfa, hfc]
    dsimp only
    rw [if_neg (by simp [hA, hC]), if_neg (by omega : ¬ a.resources < 10)]

/-- Solo player (id 1, 100 resources) joins the empty server. -/
def demoSelf0 : ServerState :=
  joinPlayer initState 1 "Solo" 100 1 500

/-- The same connection accepts a challenge naming ITSELF as the
challenger. -/
def demoSelf1 : ServerState :=
  battleAccept demoSelf0 1 1 9

/-- A challenger with only 5 resources joins. -/
def demoQ0 : ServerState :=
  joinPlayer initState 1 "PoorChall" 5 1 500

/-- An acceptor with 100 resources joins. -/
def demoQ1 : ServerState :=
  joinPlayer demoQ0 2 "RichAccept" 100 1 500

/-- The rich acceptor (sender id 2) accepts the poor challenger (id 1). -/
def demoQ2 : ServerState :=
  battleAccept demoQ1 2 1 12

/-- C4 counterexample: the claim says acceptance is rejected (no battle
created) when challenger = acceptor or when the challenger holds fewer
than 10 resources; the code creates a battle in both situations - a
self-battle with player1 = player2 = id 1, and a battle whose
challenger holds only 5 resources. -/
theorem thm_C4_cex :
    demoSelf1.battles.map (fun b => (b.bid, b.pl1.pid, b.pl2.pid, b.status))
      = [(9, 1, 1, BStatus.active)] ∧
    (findPlayer demoQ1.players 1).map (fun p => p.resources) = some 5 ∧
    demoQ2.battles.map (fun b => (b.bid, b.pl1.pid, b.pl2.pid)) = [(12, 1, 2)] := by
  decide

theorem thm_C4_witness :
    battleAccept demoQ1 5 6 1 = demoQ1 ∧
    demoQ2.battles.length = demoQ1.battles.length + 1 := by
  constructor
  · refine (thm_C4 demoQ1 5 6 1).1 ?_
    rintro ⟨a, ch, hfa, -⟩
    have h5 : findPlayer demoQ1.players 5 = none := by decide
    rw [h5] at hfa
    cases hfa
  · obtain ⟨a, ch, -, -, hb⟩ := (thm_C4 demoQ1 2 1 12).2
      ⟨{ pid := 2, name := "RichAccept", resources := 100, clickPower := 1,
         inBattle := false, battleId := none },
       { pid := 1, name := "PoorChall", resources := 5, clickPower := 1,
         inBattle := false, battleId := none },
       by decide, by decide, rfl, rfl, by decide⟩
    show demoQ2.battles.length = demoQ1.battles.length + 1
    rw [show demoQ2.battles = (battleAccept demoQ1 2 1 12).battles from rfl, hb]
    simp

/-- C5: an accepted attack costs exactly 10 (normal) or 25 (special),
recorded as the action's cost and deducted from the attacker's registry
record; the damage equals base (10/25) plus floor(clickPower * 0.1)
plus an offset determined by the uniform draw r in 0..2v, with
v = floor(0.2 * (base + bonus)); the map from draws to damages is a
bijection between the 2v+1 draws and the 2v+1 integers of
[pre - v, pre + v], so all outcomes are equally likely when r is
uniform. -/
theorem thm_C5 (ps : List BPlayerRec) (b : Battle) (a : Nat) (sp : Bool)
    (r : Nat) (coin : Bool) (rec : BPlayerRec)
    (hst : b.status = BStatus.active) (hcur : b.currentPlayer = a)
    (hsnap : (attackerOf b a).pid = a) (hfind : findPlayer ps a = some rec)
    (hres : attackCost sp ≤ rec.resources) :
    (performAttack ps b a sp r coin).isSome = true ∧
    (∀ ps2 b2 act, performAttack ps b a sp r coin = some (ps2, b2, act) →
      actCost act = some (attackCost sp) ∧
      actDamage act = some (attackDamage sp rec.clickPower r) ∧
      attackCost sp = (if sp then 25 else 10) ∧
      attackDamage sp rec.clickPower r =
        ((attackBase sp + clickBonus rec.clickPower : Nat) : Int) + r
          - damageVariance (attackBase sp + clickBonus rec.clickPower)) ∧
    (¬ max 0 (getHealth b (getOpponent b a).pid - attackDamage sp rec.clickPower r) ≤ 0 →
      b.turn + 1 < 20 →
      ∀ ps2 b2 act, performAttack ps b a sp r coin = some (ps2, b2, act) →
        (findPlayer ps2 a).map (fun p => p.resources)
          = some (rec.resources - attackCost sp)) ∧
    (r ≤ 2 * damageVariance (attackBase sp + clickBonus rec.clickPower) →
      ((attackBase sp + clickBonus rec.clickPower : Nat) : Int)
          - damageVariance (attackBase sp + clickBonus rec.clickPower)
        ≤ attackDamage sp rec.clickPower r ∧
      attackDamage sp rec.clickPower r ≤
        ((attackBase sp + clickBonus rec.clickPower : Nat) : Int)
          + damageVariance (attackBase sp + clickBonus rec.clickPower)) ∧
    (∀ r1 r2 : Nat, attackDamage sp rec.clickPower r1 = attackDamage sp rec.clickPower r2
      → r1 = r2) ∧
    (∀ d : Int,
      ((attackBase sp + clickBonus rec.clickPower : Nat) : Int)
        - damageVariance (attackBase sp + clickBonus rec.clickPower) ≤ d →
      d ≤ ((attackBase sp + clickBonus rec.clickPower : Nat) : Int)
        + damageVariance (attackBase sp + clickBonus rec.clickPower) →
      ∃ r3 : Nat, r3 ≤ 2 * damageVariance (attackBase sp + clickBonus rec.clickPower) ∧
        attackDamage sp rec.clickPower r3 = d) := by
  have hlive : liveRec ps (attackerOf b a) = rec := by
    unfold liveRec
    rw [hsnap, hfind]
    rfl
  refine ⟨?_, ?_, ?_, ?_, ?_, ?_⟩
  · unfold performAttack
    rw [if_pos hst, if_pos hcur, if_neg (by rw [hlive]; omega)]
    rfl
  · intro ps2 b2 act hsome
    have heq := performAttack_some hsome
    have hact := applyAttackCore_act ps b a sp r coin
    rw [heq] at hact
    rw [hlive] at hact
    exact ⟨hact.1, hact.2, rfl, rfl⟩
  · intro hsurv hturn ps2 b2 act hsome
    have heq := performAttack_some hsome
    rw [applyAttackCore_nonEnding (by rw [hlive]; exact hsurv) hturn] at heq
    injection heq with hA hRest
    rw [← hA, findPlayer_addRes_self, hfind]
    show some (rec.resources + -(attackCost sp)) = some (rec.resources - attackCost sp)
    rw [← sub_eq_add_neg]
  · intro hr
    unfold attackDamage
    constructor
    · push_cast
      omega
    · push_cast
      omega
  · intro r1 r2 hEq
    unfold attackDamage at hEq
    omega
  · intro d h1 h2
    refine ⟨(d + damageVariance (attackBase sp + clickBonus rec.clickPower)
      - ((attackBase sp + clickBonus rec.clickPower : Nat) : Int)).toNat, ?_, ?_⟩
    · omega
    · unfold attackDamage
      omega

theorem thm_C5_witness :
    (performAttack demoState2.players
      (demoState2.battles.getD 0 (mkBattle 0 defaultRec defaultRec))
      1 true 50 false).isSome = true := by
  have h := thm_C5 demoState2.players
    (demoState2.battles.getD 0 (mkBattle 0 defaultRec defaultRec)) 1 true 50 false
    { pid := 1, name := "Alice", resources := 100, clickPower := 1000,
      inBattle := true, battleId := some 7 }
    (by decide) (by decide) (by decide) (by decide) (by decide)
  exact h.1

/-- C6: performAttack returns the failure signal exactly when the
status is not active, or the caller is not the current player, or the
attacker's (live) resource balance is below the attack cost; a rejected
call leaves the whole server state unchanged at the handler level, and
an accepted call deducts the cost exactly once - the attacker's
registry entry changes by exactly -cost on a non-ending attack (all
other entries untouched), and by exactly -cost plus the finish reward
when the attack ends the battle. -/
theorem thm_C6 (ps : List BPlayerRec) (b : Battle) (a : Nat) (sp : Bool)
    (r : Nat) (coin : Bool) :
    (performAttack ps b a sp r coin = none ↔
      (b.status ≠ BStatus.active ∨ b.currentPlayer ≠ a ∨
        (liveRec ps (attackerOf b a)).resources < attackCost sp)) ∧
    (∀ (st : ServerState) (sid bid2 : Nat),
      (∀ p bb, findPlayer st.players sid = some p →
        st.battles.find? (fun x => x.bid == bid2) = some bb →
        performAttack st.players bb p.pid sp r coin = none) →
      battleAttack st sid bid2 sp r coin = st) ∧
    (∀ rec, findPlayer ps a = some rec → (attackerOf b a).pid = a →
      ¬ max 0 (getHealth b (getOpponent b a).pid - attackDamage sp rec.clickPower r) ≤ 0 →
      b.turn + 1 < 20 →
      ∀ ps2 b2 act, performAttack ps b a sp r coin = some (ps2, b2, act) →
        (findPlayer ps2 a).map (fun p => p.resources)
          = some (rec.resources - attackCost sp) ∧
        (∀ q : Nat, q ≠ a → findPlayer ps2 q = findPlayer ps q)) ∧
    (∀ rec, findPlayer ps a = some rec → (attackerOf b a).pid = a →
      max 0 (getHealth b (getOpponent b a).pid - attackDamage sp rec.clickPower r) ≤ 0 →
      ∀ ps2 b2 act, performAttack ps b a sp r coin = some (ps2, b2, act) →
        (findPlayer ps2 a).map (fun p => p.resources)
          = some (rec.resources - attackCost sp + (50 + (b.turn : Int) * 5))) := by
  refine ⟨performAttack_none_iff ps b a sp r coin, ?_, ?_, ?_⟩
  · intro st sid bid2 hnone
    unfold battleAttack
    split
    · rename_i player battle hfp hfb
      split
      · rfl
      · split
        · rfl
        · have hn := hnone player battle hfp hfb
          split
          · rename_i ps1 b1 act2 hsome
            rw [hn] at hsome
            cases hsome
          · rfl
    · rfl
  · intro rec hfind hsnap hsurv hturn ps2 b2 act hsome
    have hlive : liveRec ps (attackerOf b a) = rec := by
      unfold liveRec
      rw [hsnap, hfind]
      rfl
    have heq := performAttack_some hsome
    rw [applyAttackCore_nonEnding (by rw [hlive]; exact hsurv) hturn] at heq
    injection heq with hA hRest
    constructor
    · rw [← hA, findPlayer_addRes_self, hfind]
      show some (rec.resources + -(attackCost sp)) = some (rec.resources - attackCost sp)
      rw [← sub_eq_add_neg]
    · intro q hq
      rw [← hA]
      exact findPlayer_addRes_other ps a q _ hq
  · intro rec hfind hsnap hkill ps2 b2 act hsome
    have hlive : liveRec ps (attackerOf b a) = rec := by
      unfold liveRec
      rw [hsnap, hfind]
      rfl
    have heq := performAttack_some hsome
    rw [applyAttackCore_ending (by rw [hlive]; exact hkill)] at heq
    injection heq with hA hRest
    rw [← hA, findPlayer_addRes_self, findPlayer_addRes_self, hfind]
    show some (rec.resources + -(attackCost sp) + (50 + (b.turn : Int) * 5))
      = some (rec.resources - attackCost sp + (50 + (b.turn : Int) * 5))
    congr 1

theorem thm_C6_witness :
    performAttack [] (cancelBattle (mkBattle 4 defaultRec defaultRec) "seed") 0 false 0 false
      = none ∧
    battleAttack demoState1 1 99 false 0 false = demoState1 := by
  constructor
  · exact (thm_C6 [] (cancelBattle (mkBattle 4 defaultRec defaultRec) "seed")
      0 false 0 false).1.mpr (Or.inl (by decide))
  · refine (thm_C6 [] (mkBattle 0 defaultRec defaultRec) 0 false 0 false).2.1
      demoState1 1 99 ?_
    intro p bb hp hbb
    have hn : demoState1.battles.find? (fun x => x.bid == 99) = none := by decide
    rw [hn] at hbb
    cases hbb

/-- C7: finishBattle marks the battle finished with the given winner
and credits the winner's registry record exactly 50 + 5 * turn
resources; and when an accepted attack drives the defender's health to
0, the battle finishes with the attacker as winner, the action is
marked battle-ending, and the attacker's registry balance nets
-cost + 50 + 5 * turn. -/
theorem thm_C7 :
    (∀ (ps : List BPlayerRec) (b : Battle) (w : Nat) (rec : BPlayerRec),
      findPlayer ps w = some rec →
      (finishBattle ps b w).2.status = BStatus.finished ∧
      (finishBattle ps b w).2.winner = some w ∧
      (findPlayer (finishBattle ps b w).1 w).map (fun p => p.resources)
        = some (rec.resources + (50 + (b.turn : Int) * 5))) ∧
    (∀ (ps : List BPlayerRec) (b : Battle) (a : Nat) (sp : Bool) (r : Nat)
      (coin : Bool) (rec : BPlayerRec),
      b.status = BStatus.active → b.currentPlayer = a → (attackerOf b a).pid = a →
      findPlayer ps a = some rec → attackCost sp ≤ rec.resources →
      max 0 (getHealth b (getOpponent b a).pid - attackDamage sp rec.clickPower r) ≤ 0 →
      ∀ ps2 b2 act, performAttack ps b a sp r coin = some (ps2, b2, act) →
        b2.status = BStatus.finished ∧ b2.winner = some a ∧ actEnd act = true ∧
        (findPlayer ps2 a).map (fun p => p.resources)
          = some (rec.resources - attackCost sp + (50 + (b.turn : Int) * 5))) := by
  constructor
  · intro ps b w rec hfind
    refine ⟨finishBattle_status ps b w, finishBattle_winner ps b w, ?_⟩
    rw [finishBattle_players, findPlayer_addRes_self, hfind]
    rfl
  · intro ps b a sp r coin rec hst hcur hsnap hfind hres hkill ps2 b2 act hsome
    have hlive : liveRec ps (attackerOf b a) = rec := by
      unfold liveRec
      rw [hsnap, hfind]
      rfl
    have heq := performAttack_some hsome
    rw [applyAttackCore_ending (by rw [hlive]; exact hkill)] at heq
    injection heq with hA hRest
    injection hRest with hB hC
    refine ⟨?_, ?_, ?_, ?_⟩
    · rw [← hB]
      rfl
    · rw [← hB]
      rfl
    · rw [← hC]
      rfl
    · rw [← hA, findPlayer_addRes_self, findPlayer_addRes_self, hfind]
      show some (rec.resources + -(attackCost sp) + (50 + (b.turn : Int) * 5))
        = some (rec.resources - attackCost sp + (50 + (b.turn : Int) * 5))
      congr 1

/-- Alice's registry record as it stands in demoState1 (before the
battle flags are set). -/
def demoRecAlice : BPlayerRec :=
  { pid := 1, name := "Alice", resources := 100, clickPower := 1000,
    inBattle := false, battleId := none }

theorem thm_C7_witness :
    (finishBattle demoState1.players
      (demoState2.battles.getD 0 (mkBattle 0 defaultRec defaultRec)) 1).2.status
      = BStatus.finished ∧
    (findPlayer (finishBattle demoState1.players
      (demoState2.battles.getD 0 (mkBattle 0 defaultRec defaultRec)) 1).1 1).map
        (fun p => p.resources) = some 150 := by
  have h := thm_C7.1 demoState1.players
    (demoState2.battles.getD 0 (mkBattle 0 defaultRec defaultRec)) 1 demoRecAlice
    (by decide)
  refine ⟨h.1, ?_⟩
  rw [h.2.2]
  decide

lemma takeWhile_digits_append (l1 rest : List Char)
    (hl : ∀ c ∈ l1, isDigitCh c = true) :
    (l1 ++ '_' :: rest).takeWhile isDigitCh = l1 := by
  induction l1 with
  | nil =>
      rw [List.nil_append, List.takeWhile_cons, if_neg (by decide)]
  | cons c t ih =>
      rw [List.cons_append, List.takeWhile_cons]
      rw [if_pos (hl c (List.mem_cons_self c t))]
      rw [ih (fun x hx => hl x (List.mem_cons_of_mem c hx))]

lemma stripTailList_append (xs ds : List Char) (h3 : ds.length = 3)
    (hd : ∀ c ∈ ds, isDigitCh c = true) :
    stripTailList (xs ++ '_' :: ds) = xs := by
  have htd : trailingDigits (xs ++ '_' :: ds) = 3 := by
    unfold trailingDigits
    rw [List.reverse_append, List.reverse_cons, List.append_assoc,
      List.singleton_append]
    rw [takeWhile_digits_append ds.reverse xs.reverse
      (fun c hc => hd c (List.mem_reverse.mp hc))]
    rw [List.length_reverse, h3]
  unfold stripTailList
  dsimp only
  rw [htd]
  have hlen : (xs ++ '_' :: ds).length = xs.length + 4 := by
    rw [List.length_append, List.length_cons, h3]
  rw [hlen]
  have hidx : xs.length + 4 - 3 - 1 = xs.length := by omega
  rw [hidx]
  have hget : (xs ++ '_' :: ds).get? xs.length = some '_' := by
    rw [List.get?_append_right (le_refl _)]
    simp
  rw [if_pos ⟨by norm_num, by norm_num, hget⟩]
  exact List.take_left xs ('_' :: ds)

lemma stripTail_append (s t : String) (h3 : t.data.length = 3)
    (hd : ∀ c ∈ t.data, isDigitCh c = true) :
    stripTail (s ++ "_" ++ t) = s := by
  unfold stripTail
  have hu : ("_" : String).data = ['_'] := rfl
  have hdata : (s ++ "_" ++ t).data = s.data ++ '_' :: t.data := by
    rw [String.data_append, String.data_append, hu, List.append_assoc,
      List.singleton_append]
  rw [hdata, stripTailList_append s.data t.data h3 hd]

/-- C9 (amended): the join handler's suffixing triggers exactly when
ANY currently registered player's stripped name equals the stripped
requested name - the find does not exclude the joining connection's own
record, so a re-join under one's own name also gets suffixed; the
resulting name always carries at most one suffix: stripping the final
name again yields the same base as stripping the request. -/
theorem thm_C9 (ps : List BPlayerRec) (req : String) (suf : Nat)
    (hlen : (toString suf).data.length = 3)
    (hdig : ∀ c ∈ (toString suf).data, isDigitCh c = true) :
    (joinFinalName ps req suf ≠ req →
      ∃ p ∈ ps, stripTail p.name = stripTail req) ∧
    ((∃ p ∈ ps, stripTail p.name = stripTail req) →
      joinFinalName ps req suf = stripTail req ++ "_" ++ toString suf) ∧
    stripTail (joinFinalName ps req suf) = stripTail req := by
  by_cases hany : ps.any (fun p => stripTail p.name == stripTail req) = true
  · have hres : joinFinalName ps req suf = stripTail req ++ "_" ++ toString suf := by
      unfold joinFinalName
      dsimp only
      rw [if_pos hany]
    refine ⟨fun _ => ?_, fun _ => hres, ?_⟩
    · rcases List.any_eq_true.mp hany with ⟨p, hp, hbeq⟩
      exact ⟨p, hp, by simpa using hbeq⟩
    · rw [hres]
      exact stripTail_append (stripTail req) (toString suf) hlen hdig
  · have hres : joinFinalName ps req suf = req := by
      unfold joinFinalName
      dsimp only
      rw [if_neg hany]
    refine ⟨fun hne => absurd hres hne, fun hex => ?_, by rw [hres]⟩
    exfalso
    apply hany
    rcases hex with ⟨p, hp, he⟩
    exact List.any_eq_true.mpr ⟨p, hp, by simpa using he⟩

/-- Alice joins the empty server; no collision, name kept. -/
def demoJ0 : ServerState :=
  joinPlayer initState 1 "Alice" 0 1 477

/-- The SAME connection re-joins with the SAME name: the collision scan
finds the player's own record and appends a suffix anyway. -/
def demoJ1 : ServerState :=
  joinPlayer demoJ0 1 "Alice" 0 1 477

/-- C9 counterexample: a player re-joining under their own connection
id with their own name does NOT keep it unsuffixed - the code renames
Alice to Alice_477 because the collision find also matches the joining
player's own record, contrary to the claim's "some other player"
condition. -/
theorem thm_C9_cex :
    (findPlayer demoJ0.players 1).map (fun p => p.name) = some "Alice" ∧
    (findPlayer demoJ1.players 1).map (fun p => p.name) = some "Alice_477" := by
  decide

theorem thm_C9_witness :
    joinFinalName demoJ0.players "Alice" 477 = "Alice" ++ "_" ++ toString 477 ∧
    stripTail (joinFinalName demoJ0.players "Alice" 477) = stripTail "Alice" := by
  have h := thm_C9 demoJ0.players "Alice" 477 (by decide) (by decide)
  refine ⟨?_, h.2.2⟩
  have he : ∃ p ∈ demoJ0.players, stripTail p.name = stripTail "Alice" :=
    ⟨{ pid := 1, name := "Alice", resources := 0, clickPower := 1,
       inBattle := false, battleId := none }, by decide, by decide⟩
  have := h.2.1 he
  rw [this]
  rfl

/-- C10: the battle-decline handler dereferences the sender's registry
record unconditionally whenever the named challenger is registered, so
it errors exactly when the challenger is registered and the sender is
not; with the sender registered it never errors. -/
theorem thm_C10 (ps : List BPlayerRec) (s c : Nat) (reason : Option String) :
    (battleDecline ps s c reason = Except.error () ↔
      (findPlayer ps c).isSome = true ∧ findPlayer ps s = none) ∧
    (∀ rec, findPlayer ps s = some rec →
      ∀ e : Unit, battleDecline ps s c reason ≠ Except.error e) := by
  unfold battleDecline
  cases hc : findPlayer ps c with
  | none =>
      cases hs : findPlayer ps s with
      | none => simp [hc, hs]
      | some d => simp [hc, hs]
  | some ch =>
      cases hs : findPlayer ps s with
      | none => simp [hc, hs]
      | some d => simp [hc, hs]

theorem thm_C10_witness :
    battleDecline
      [{ pid := 3, name := "Challenger", resources := 0, clickPower := 1,
         inBattle := false, battleId := none }] 4 3 none = Except.error () := by
  exact (thm_C10
    [{ pid := 3, name := "Challenger", resources := 0, clickPower := 1,
       inBattle := false, battleId := none }] 4 3 none).1.mpr ⟨by decide, by decide⟩
